import Mathlib

/-!
Verification of the map-generation core (`src/utils/noise.ts`):
seeded LCG PRNG, multi-octave noise-field synthesis with min/max
normalization, steepest-descent river tracing, and rejection-sampled
city placement.

Modelling conventions:
* JS numbers are idealized as exact rationals (`ℚ`); machine-integer
  grid data (dimensions, indices, PRNG state) is `ℕ`/`ℤ`.
* A JS division whose divisor is zero never yields a finite number
  (`0/0` is `NaN`, `x/0` is `±Infinity`), so normalized cells are
  `Option ℚ` with `none` standing for a non-finite result.
* The `simplex-noise` package is external to the repository, so the
  2-D noise sampler is an uninterpreted parameter `noise : ℚ → ℚ → ℚ`
  and the number of PRNG draws its constructor consumes is a
  parameter `ctorDraws`.
-/

namespace MapGen

/-- One step of the linear congruential generator from `createRandom`:
`state = (state * 1664525 + 1013904223) % 4294967296`. -/
def lcgNext (s : ℕ) : ℕ := (s * 1664525 + 1013904223) % 4294967296

/-- `random()`: advance the LCG state and return `state / 2^32 ∈ [0,1)`,
together with the new state. -/
def lcgDraw (s : ℕ) : ℚ × ℕ :=
  let s2 := lcgNext s
  ((s2 : ℚ) / 4294967296, s2)

/-- `Math.floor(random() * n)` for a natural bound `n`: the exact floor of
`(state / 2^32) * n` is `state * n / 2^32` in natural division. -/
def randBelow (s n : ℕ) : ℕ × ℕ :=
  let s2 := lcgNext s
  (s2 * n / 4294967296, s2)

/-- Iterate the LCG `k` times from a seed (models the draws consumed by
the external `createNoise2D` constructor before the octave offsets). -/
def lcgIterate : ℕ → ℕ → ℕ
  | 0, s => s
  | k + 1, s => lcgIterate k (lcgNext s)

/-! ## Noise-field synthesis (`generateNoiseMap`) -/

/-- JS division producing `none` for the non-finite results that arise
when the divisor is zero (`NaN` or `±Infinity`). -/
def jsDiv (a b : ℚ) : Option ℚ := if b = 0 then none else some (a / b)

/-- `Number.MIN_VALUE`: the smallest positive denormal double, `2^-1074`.
It is positive — it is the initializer of `maxNoiseHeight` in the source. -/
def NumberMinValue : ℚ := 1 / 2 ^ 1074

/-- `Number.MAX_VALUE = (2^53 - 1) * 2^971`, initializer of `minNoiseHeight`. -/
def NumberMaxValue : ℚ := (2 ^ 53 - 1) * 2 ^ 971

/-- `if (scale <= 0) scale = 0.0001`. -/
def sanitizeScale (scale : ℚ) : ℚ := if scale ≤ 0 then 1 / 10000 else scale

/-- The per-octave random offsets: for each octave two draws, each scaled
by `100000`, in evaluation order. Returns the offsets and the final state. -/
def drawOffsets : ℕ → ℕ → List (ℚ × ℚ) × ℕ
  | 0, s => ([], s)
  | n + 1, s =>
    let rx := lcgDraw s
    let ry := lcgDraw rx.2
    let rest := drawOffsets n ry.2
    ((rx.1 * 100000, ry.1 * 100000) :: rest.1, rest.2)

/-- The inner octave accumulation for one cell `(x, y)`:
`noiseHeight += noise2D((x/scale)*freq + off.x, (y/scale)*freq + off.y) * amp`
with `amp *= persistence`, `freq *= lacunarity` per octave. -/
def octaveValue (noise : ℚ → ℚ → ℚ) (offs : List (ℚ × ℚ))
    (scale persistence lacunarity : ℚ) (x y : ℕ) : ℚ :=
  (offs.foldl
    (fun acc off =>
      (acc.1 + noise ((x / scale) * acc.2.2 + off.1) ((y / scale) * acc.2.2 + off.2) * acc.2.1,
       acc.2.1 * persistence, acc.2.2 * lacunarity))
    (0, 1, 1)).1

/-- The raw (pre-normalization) noise map in row-major order
(`index i` holds the value of cell `x = i % width`, `y = i / width`). -/
def rawNoiseList (noise : ℚ → ℚ → ℚ) (ctorDraws width height seed : ℕ)
    (scale : ℚ) (octaves : ℕ) (persistence lacunarity : ℚ) : List ℚ :=
  let s0 := lcgIterate ctorDraws seed
  let offs := (drawOffsets octaves s0).1
  let sc := sanitizeScale scale
  (List.range (width * height)).map fun i =>
    octaveValue noise offs sc persistence lacunarity (i % width) (i / width)

/-- `minNoiseHeight`: running minimum, initialized to `Number.MAX_VALUE`. -/
def minTracked (l : List ℚ) : ℚ := l.foldl min NumberMaxValue

/-- `maxNoiseHeight`: running maximum, initialized to `Number.MIN_VALUE`
(which is positive, not `-Infinity`). -/
def maxTracked (l : List ℚ) : ℚ := l.foldl max NumberMinValue

/-- `generateNoiseMap`: raw octave field, then the unguarded second pass
`noiseMap[i] = (noiseMap[i] - minNoiseHeight) / (maxNoiseHeight - minNoiseHeight)`. -/
def generateNoiseMap (noise : ℚ → ℚ → ℚ) (ctorDraws width height seed : ℕ)
    (scale : ℚ) (octaves : ℕ) (persistence lacunarity : ℚ) : List (Option ℚ) :=
  let raw := rawNoiseList noise ctorDraws width height seed scale octaves persistence lacunarity
  let mn := minTracked raw
  let mx := maxTracked raw
  raw.map fun v => jsDiv (v - mn) (mx - mn)

/-! ## River tracing (`generateRivers`)

The height field handed to `generateRivers` is a read-only row-major
array; it is modelled as a function `noiseMap : ℕ → ℚ` on indices. -/

/-- `getHeight`: out-of-bounds coordinates read as elevation `1`. -/
def getHeightZ (noiseMap : ℕ → ℚ) (w h : ℕ) (x y : ℤ) : ℚ :=
  if x < 0 ∨ (w : ℤ) ≤ x ∨ y < 0 ∨ (h : ℤ) ≤ y then 1
  else noiseMap (y * w + x).toNat

/-- The 8 neighbor offsets in source scan order
(`ny` outer from −1 to 1, `nx` inner from −1 to 1, skipping (0,0)). -/
def neighborOffsets : List (ℤ × ℤ) :=
  [(-1, -1), (0, -1), (1, -1), (-1, 0), (1, 0), (-1, 1), (0, 1), (1, 1)]

/-- The neighbor scan of the downhill walk: starting from the current
cell and its height, replace the tracked cell whenever a neighbor is
strictly lower. Returns `(lowestX, lowestY, lowestHeight)`. -/
def chooseLowest (noiseMap : ℕ → ℚ) (w h : ℕ) (x y : ℤ) : ℤ × ℤ × ℚ :=
  neighborOffsets.foldl
    (fun acc d =>
      let nh := getHeightZ noiseMap w h (x + d.1) (y + d.2)
      if nh < acc.2.2 then (x + d.1, y + d.2, nh) else acc)
    (x, y, getHeightZ noiseMap w h x y)

/-- The downhill walk (`while (!terminated && river.length < 1000)`).
`fuel` only bounds the recursion depth: each iteration that continues
appends one index, and the canonical call passes fuel 1000, which the
`1000 ≤ river.length` cap stops before the fuel can run out. -/
def walk (noiseMap : ℕ → ℚ) (w h : ℕ) : ℕ → ℤ → ℤ → List ℕ → List ℕ
  | 0, _, _, river => river
  | fuel + 1, x, y, river =>
    if 1000 ≤ river.length then river
    else
      let c := chooseLowest noiseMap w h x y
      if c.1 = x ∧ c.2.1 = y then river
      else if c.1 < 0 ∨ (w : ℤ) ≤ c.1 ∨ c.2.1 < 0 ∨ (h : ℤ) ≤ c.2.1 then river
      else
        let idx := (c.2.1 * w + c.1).toNat
        if idx ∈ river then river
        else walk noiseMap w h fuel c.1 c.2.1 (river ++ [idx])

/-- The start-point `do…while` loop: draw `(x, y)`, increment the attempt
counter, and repeat while the height is outside `[0.6, 0.8]` and the
counter is below 100. Returns `(x, y, state, attempts)`. `fuel` only
bounds recursion: the canonical call has `fuel = 100`, `a = 0`, and the
`a + 1 < 100` guard stops before the fuel can run out. -/
def findStartAux (noiseMap : ℕ → ℚ) (w h : ℕ) : ℕ → ℕ → ℕ → ℕ × ℕ × ℕ × ℕ
  | 0, s, a => (0, 0, s, a)
  | fuel + 1, s, a =>
    let p1 := randBelow s w
    let p2 := randBelow p1.2 h
    let a2 := a + 1
    let gh := getHeightZ noiseMap w h p1.1 p2.1
    if (gh < 0.6 ∨ 0.8 < gh) ∧ a2 < 100 then findStartAux noiseMap w h fuel p2.2 a2
    else (p1.1, p2.1, p2.2, a2)

/-- One river attempt's start search: the two draws before the loop are
assigned to `startX`/`startY` but immediately overwritten by the loop's
own draws, so they only advance the PRNG. -/
def riverStart (noiseMap : ℕ → ℚ) (w h : ℕ) (s : ℕ) : ℕ × ℕ × ℕ × ℕ :=
  let d1 := randBelow s w
  let d2 := randBelow d1.2 h
  findStartAux noiseMap w h 100 d2.2 0

/-- One iteration of the `for (r …)` loop: search for a start
(`continue` when the counter reached 100), walk downhill from it, and
retain the path only when its length is at least `minRiverLength`. -/
def riverAttempt (noiseMap : ℕ → ℚ) (w h minLen : ℕ) (s : ℕ) : Option (List ℕ) × ℕ :=
  let r := riverStart noiseMap w h s
  if 100 ≤ r.2.2.2 then (none, r.2.2.1)
  else
    let river := walk noiseMap w h 1000 r.1 r.2.1 [r.2.1 * w + r.1]
    if minLen ≤ river.length then (some river, r.2.2.1) else (none, r.2.2.1)

/-- The attempts loop: retained rivers in attempt order. -/
def riversLoop (noiseMap : ℕ → ℚ) (w h minLen : ℕ) : ℕ → ℕ → List (List ℕ)
  | 0, _ => []
  | r + 1, s =>
    let a := riverAttempt noiseMap w h minLen s
    match a.1 with
    | some p => p :: riversLoop noiseMap w h minLen r a.2
    | none => riversLoop noiseMap w h minLen r a.2

/-- `generateRivers(noiseMap, width, height, seed, riverCount, minRiverLength)`. -/
def generateRivers (noiseMap : ℕ → ℚ) (w h seed riverCount minLen : ℕ) : List (List ℕ) :=
  riversLoop noiseMap w h minLen riverCount seed

/-! ## City placement (`placeCities`) -/

structure City where
  x : ℕ
  y : ℕ
  size : ℚ
deriving DecidableEq, Repr

/-- Membership of any cell of the `(2d+1) × (2d+1)` square around
`(x, y)` (out-of-bounds cells skipped) in the set of river points. -/
def isNearRiver (riverPoints : List ℕ) (w h : ℕ) (x y d : ℕ) : Bool :=
  (List.range (2 * d + 1)).any fun j =>
    (List.range (2 * d + 1)).any fun i =>
      let cx : ℤ := (x : ℤ) + i - d
      let cy : ℤ := (y : ℤ) + j - d
      if cx < 0 ∨ (w : ℤ) ≤ cx ∨ cy < 0 ∨ (h : ℤ) ≤ cy then false
      else decide ((cy * w + cx).toNat ∈ riverPoints)

/-- The city rejection-sampling loop. `fuel` is the remaining attempt
budget (`attempts < cityCount * 10` in the source); the candidate is
rejected on terrain outside `[0.3, 0.7]`, rejected with one extra draw
below 0.7 when not near a river (the draw happens only in that case,
mirroring the `&&` short-circuit), and rejected when some existing city
is closer than `width/10` — the source compares
`sqrt(dx² + dy²) < width/10`, embedded as the equivalent
`dx² + dy² < (width/10)²` (both sides are non-negative). -/
def cityLoop (noiseMap : ℕ → ℚ) (riverPoints : List ℕ) (w h cityCount : ℕ) :
    ℕ → ℕ → List City → List City
  | 0, _, cities => cities
  | fuel + 1, s, cities =>
    if cityCount ≤ cities.length then cities
    else
      let p1 := randBelow s w
      let p2 := randBelow p1.2 h
      let x := p1.1
      let y := p2.1
      let th := noiseMap (y * w + x)
      if th < 0.3 ∨ 0.7 < th then cityLoop noiseMap riverPoints w h cityCount fuel p2.2 cities
      else if isNearRiver riverPoints w h x y 3 then
        -- near a river: the `random() < 0.7` draw is short-circuited away
        if cities.any fun c =>
            ((c.x : ℚ) - (x : ℚ)) ^ 2 + ((c.y : ℚ) - (y : ℚ)) ^ 2 < ((w : ℚ) / 10) ^ 2 then
          cityLoop noiseMap riverPoints w h cityCount fuel p2.2 cities
        else
          cityLoop noiseMap riverPoints w h cityCount fuel (lcgDraw p2.2).2
            (cities ++ [⟨x, y, 1 + (lcgDraw p2.2).1 * 2 + 1 +
              (if 0.4 < th ∧ th < 0.6 then (1 : ℚ) / 2 else 0)⟩])
      else
        -- not near a river: consume one draw and reject when it is below 0.7
        if (lcgDraw p2.2).1 < 0.7 then
          cityLoop noiseMap riverPoints w h cityCount fuel (lcgDraw p2.2).2 cities
        else if cities.any fun c =>
            ((c.x : ℚ) - (x : ℚ)) ^ 2 + ((c.y : ℚ) - (y : ℚ)) ^ 2 < ((w : ℚ) / 10) ^ 2 then
          cityLoop noiseMap riverPoints w h cityCount fuel (lcgDraw p2.2).2 cities
        else
          cityLoop noiseMap riverPoints w h cityCount fuel (lcgDraw (lcgDraw p2.2).2).2
            (cities ++ [⟨x, y, 1 + (lcgDraw (lcgDraw p2.2).2).1 * 2 +
              (if 0.4 < th ∧ th < 0.6 then (1 : ℚ) / 2 else 0)⟩])

/-- `placeCities(noiseMap, rivers, width, height, seed, cityCount)`:
the river-point set is `rivers.flat()`, the attempt budget `cityCount * 10`. -/
def placeCities (noiseMap : ℕ → ℚ) (rivers : List (List ℕ)) (w h seed cityCount : ℕ) :
    List City :=
  cityLoop noiseMap rivers.flatten w h cityCount (cityCount * 10) seed []

/-! ## State-threaded views

JS arrays are passed by reference and mutable, so a caller-visible
effect on `noiseMap` is possible in principle; these views thread the
array value through every loop iteration, exactly as the source's
statements act on it — the bodies contain only the reads in
`getHeight` / the direct indexings, and no element assignment. -/

/-- `riversLoop` with the height-field array threaded through. -/
def riversLoopSt (w h minLen : ℕ) : (ℕ → ℚ) → ℕ → ℕ → List (List ℕ) × (ℕ → ℚ)
  | noiseMap, 0, _ => ([], noiseMap)
  | noiseMap, r + 1, s =>
    let a := riverAttempt noiseMap w h minLen s
    let rest := riversLoopSt w h minLen noiseMap r a.2
    (match a.1 with
     | some p => p :: rest.1
     | none => rest.1, rest.2)

/-- `generateRivers` returning also the final array state. -/
def generateRiversSt (noiseMap : ℕ → ℚ) (w h seed riverCount minLen : ℕ) :
    List (List ℕ) × (ℕ → ℚ) :=
  riversLoopSt w h minLen noiseMap riverCount seed

/-- `cityLoop` with the height-field array threaded through. -/
def cityLoopSt (riverPoints : List ℕ) (w h cityCount : ℕ) :
    (ℕ → ℚ) → ℕ → ℕ → List City → List City × (ℕ → ℚ)
  | noiseMap, 0, _, cities => (cities, noiseMap)
  | noiseMap, fuel + 1, s, cities =>
    if cityCount ≤ cities.length then (cities, noiseMap)
    else
      let p1 := randBelow s w
      let p2 := randBelow p1.2 h
      let x := p1.1
      let y := p2.1
      let th := noiseMap (y * w + x)
      if th < 0.3 ∨ 0.7 < th then
        cityLoopSt riverPoints w h cityCount noiseMap fuel p2.2 cities
      else if isNearRiver riverPoints w h x y 3 then
        if cities.any fun c =>
            ((c.x : ℚ) - (x : ℚ)) ^ 2 + ((c.y : ℚ) - (y : ℚ)) ^ 2 < ((w : ℚ) / 10) ^ 2 then
          cityLoopSt riverPoints w h cityCount noiseMap fuel p2.2 cities
        else
          cityLoopSt riverPoints w h cityCount noiseMap fuel (lcgDraw p2.2).2
            (cities ++ [⟨x, y, 1 + (lcgDraw p2.2).1 * 2 + 1 +
              (if 0.4 < th ∧ th < 0.6 then (1 : ℚ) / 2 else 0)⟩])
      else
        if (lcgDraw p2.2).1 < 0.7 then
          cityLoopSt riverPoints w h cityCount noiseMap fuel (lcgDraw p2.2).2 cities
        else if cities.any fun c =>
            ((c.x : ℚ) - (x : ℚ)) ^ 2 + ((c.y : ℚ) - (y : ℚ)) ^ 2 < ((w : ℚ) / 10) ^ 2 then
          cityLoopSt riverPoints w h cityCount noiseMap fuel (lcgDraw p2.2).2 cities
        else
          cityLoopSt riverPoints w h cityCount noiseMap fuel (lcgDraw (lcgDraw p2.2).2).2
            (cities ++ [⟨x, y, 1 + (lcgDraw (lcgDraw p2.2).2).1 * 2 +
              (if 0.4 < th ∧ th < 0.6 then (1 : ℚ) / 2 else 0)⟩])

/-- `placeCities` returning also the final array state. -/
def placeCitiesSt (noiseMap : ℕ → ℚ) (rivers : List (List ℕ)) (w h seed cityCount : ℕ) :
    List City × (ℕ → ℚ) :=
  cityLoopSt rivers.flatten w h cityCount noiseMap (cityCount * 10) seed []

/-! ## Basic lemmas: PRNG ranges and index arithmetic -/

theorem lcgNext_lt (s : ℕ) : lcgNext s < 4294967296 :=
  Nat.mod_lt _ (by norm_num)

theorem lcgDraw_nonneg (s : ℕ) : 0 ≤ (lcgDraw s).1 := by
  unfold lcgDraw
  positivity

theorem lcgDraw_lt_one (s : ℕ) : (lcgDraw s).1 < 1 := by
  unfold lcgDraw
  rw [div_lt_one (by norm_num)]
  exact_mod_cast lcgNext_lt s

theorem randBelow_lt (s n : ℕ) (hn : 0 < n) : (randBelow s n).1 < n := by
  unfold randBelow
  rw [Nat.div_lt_iff_lt_mul (by norm_num : 0 < 4294967296)]
  calc lcgNext s * n < 4294967296 * n := by
        exact Nat.mul_lt_mul_of_lt_of_le (lcgNext_lt s) le_rfl hn
    _ = n * 4294967296 := Nat.mul_comm _ _

theorem idx_lt_nat {w h a b : ℕ} (ha : a < w) (hb : b < h) : b * w + a < w * h := by
  calc b * w + a < b * w + w := by omega
    _ = (b + 1) * w := by ring
    _ ≤ h * w := Nat.mul_le_mul_right w (by omega)
    _ = w * h := Nat.mul_comm _ _

theorem idx_toNat_lt {w h : ℕ} {x y : ℤ} (hx0 : 0 ≤ x) (hxw : x < (w : ℤ))
    (hy0 : 0 ≤ y) (hyh : y < (h : ℤ)) : (y * w + x).toNat < w * h := by
  obtain ⟨a, rfl⟩ := Int.eq_ofNat_of_zero_le hx0
  obtain ⟨b, rfl⟩ := Int.eq_ofNat_of_zero_le hy0
  have ha : a < w := by exact_mod_cast hxw
  have hb : b < h := by exact_mod_cast hyh
  have : ((b : ℤ) * w + a) = ((b * w + a : ℕ) : ℤ) := by push_cast; ring
  rw [this, Int.toNat_natCast]
  exact idx_lt_nat ha hb

/-! ## Lemmas about `getHeightZ` and `chooseLowest` -/

theorem getHeightZ_oob (nm : ℕ → ℚ) (w h : ℕ) {x y : ℤ}
    (hoob : x < 0 ∨ (w : ℤ) ≤ x ∨ y < 0 ∨ (h : ℤ) ≤ y) :
    getHeightZ nm w h x y = 1 := if_pos hoob

theorem getHeightZ_inBounds (nm : ℕ → ℚ) (w h : ℕ) {x y : ℤ}
    (hx0 : 0 ≤ x) (hxw : x < (w : ℤ)) (hy0 : 0 ≤ y) (hyh : y < (h : ℤ)) :
    getHeightZ nm w h x y = nm (y * w + x).toNat := by
  unfold getHeightZ
  rw [if_neg (by omega)]

theorem inBounds_of_getHeightZ_le (nm : ℕ → ℚ) (w h : ℕ) {x y : ℤ}
    (hle : getHeightZ nm w h x y ≤ 0.8) :
    0 ≤ x ∧ x < (w : ℤ) ∧ 0 ≤ y ∧ y < (h : ℤ) := by
  by_cases hc : x < 0 ∨ (w : ℤ) ≤ x ∨ y < 0 ∨ (h : ℤ) ≤ y
  · rw [getHeightZ_oob nm w h hc] at hle
    norm_num at hle
  · omega

theorem foldl_lowestStep_spec (nm : ℕ → ℚ) (w h : ℕ) (x y : ℤ) (l : List (ℤ × ℤ)) :
    ∀ acc : ℤ × ℤ × ℚ,
      (acc = (x, y, getHeightZ nm w h x y) ∨
        (acc.2.2 = getHeightZ nm w h acc.1 acc.2.1 ∧ acc.2.2 < getHeightZ nm w h x y)) →
      (l.foldl
          (fun acc d =>
            let nh := getHeightZ nm w h (x + d.1) (y + d.2)
            if nh < acc.2.2 then (x + d.1, y + d.2, nh) else acc) acc =
          (x, y, getHeightZ nm w h x y) ∨
        ((l.foldl
              (fun acc d =>
                let nh := getHeightZ nm w h (x + d.1) (y + d.2)
                if nh < acc.2.2 then (x + d.1, y + d.2, nh) else acc) acc).2.2 =
            getHeightZ nm w h
              (l.foldl
                  (fun acc d =>
                    let nh := getHeightZ nm w h (x + d.1) (y + d.2)
                    if nh < acc.2.2 then (x + d.1, y + d.2, nh) else acc) acc).1
              (l.foldl
                  (fun acc d =>
                    let nh := getHeightZ nm w h (x + d.1) (y + d.2)
                    if nh < acc.2.2 then (x + d.1, y + d.2, nh) else acc) acc).2.1 ∧
          (l.foldl
              (fun acc d =>
                let nh := getHeightZ nm w h (x + d.1) (y + d.2)
                if nh < acc.2.2 then (x + d.1, y + d.2, nh) else acc) acc).2.2 <
            getHeightZ nm w h x y)) := by
  induction l with
  | nil => intro acc hacc; exact hacc
  | cons d l ih =>
    intro acc hacc
    rw [List.foldl_cons]
    apply ih
    simp only
    split
    next hlt =>
      right
      refine ⟨rfl, ?_⟩
      rcases hacc with h1 | ⟨_, h2⟩
      · rw [h1] at hlt
        exact hlt
      · exact lt_trans hlt h2
    next => exact hacc

theorem chooseLowest_spec (nm : ℕ → ℚ) (w h : ℕ) (x y : ℤ) :
    chooseLowest nm w h x y = (x, y, getHeightZ nm w h x y) ∨
      ((chooseLowest nm w h x y).2.2 =
          getHeightZ nm w h (chooseLowest nm w h x y).1 (chooseLowest nm w h x y).2.1 ∧
        (chooseLowest nm w h x y).2.2 < getHeightZ nm w h x y) := by
  unfold chooseLowest
  exact foldl_lowestStep_spec nm w h x y neighborOffsets _ (Or.inl rfl)

theorem chooseLowest_move (nm : ℕ → ℚ) (w h : ℕ) {x y : ℤ}
    (hne : ¬((chooseLowest nm w h x y).1 = x ∧ (chooseLowest nm w h x y).2.1 = y)) :
    (chooseLowest nm w h x y).2.2 =
        getHeightZ nm w h (chooseLowest nm w h x y).1 (chooseLowest nm w h x y).2.1 ∧
      (chooseLowest nm w h x y).2.2 < getHeightZ nm w h x y := by
  rcases chooseLowest_spec nm w h x y with hc | hc
  · exact absurd ⟨by rw [hc], by rw [hc]⟩ hne
  · exact hc

theorem chooseLowest_inBounds (nm : ℕ → ℚ) (w h : ℕ) {x y : ℤ}
    (hx0 : 0 ≤ x) (hxw : x < (w : ℤ)) (hy0 : 0 ≤ y) (hyh : y < (h : ℤ))
    (h1 : getHeightZ nm w h x y ≤ 1) :
    0 ≤ (chooseLowest nm w h x y).1 ∧ (chooseLowest nm w h x y).1 < (w : ℤ) ∧
      0 ≤ (chooseLowest nm w h x y).2.1 ∧ (chooseLowest nm w h x y).2.1 < (h : ℤ) := by
  rcases chooseLowest_spec nm w h x y with hc | ⟨heq, hlt⟩
  · rw [hc]
    exact ⟨hx0, hxw, hy0, hyh⟩
  · have hnot : ¬((chooseLowest nm w h x y).1 < 0 ∨ (w : ℤ) ≤ (chooseLowest nm w h x y).1 ∨
        (chooseLowest nm w h x y).2.1 < 0 ∨ (h : ℤ) ≤ (chooseLowest nm w h x y).2.1) := by
      intro hoob
      rw [getHeightZ_oob nm w h hoob] at heq
      rw [heq] at hlt
      exact absurd (lt_of_lt_of_le hlt h1) (lt_irrefl 1)
    omega

/-! ## The walk invariant -/

theorem walk_spec (nm : ℕ → ℚ) (w h : ℕ) :
    ∀ (fuel : ℕ) (x y : ℤ) (river : List ℕ),
      0 ≤ x → x < (w : ℤ) → 0 ≤ y → y < (h : ℤ) →
      river.getLast? = some (y * w + x).toNat →
      river.Nodup →
      (∀ i ∈ river, i < w * h) →
      List.Chain' (fun a b => nm b < nm a) river →
      ((walk nm w h fuel x y river).Nodup ∧
        (∀ i ∈ walk nm w h fuel x y river, i < w * h) ∧
        List.Chain' (fun a b => nm b < nm a) (walk nm w h fuel x y river) ∧
        (walk nm w h fuel x y river).head? = river.head?) := by
  intro fuel
  induction fuel with
  | zero =>
    intro x y river _ _ _ _ _ hnd hbd hch
    exact ⟨hnd, hbd, hch, rfl⟩
  | succ fuel ih =>
    intro x y river hx0 hxw hy0 hyh hlast hnd hbd hch
    simp only [walk]
    split
    · exact ⟨hnd, hbd, hch, rfl⟩
    · split
      · exact ⟨hnd, hbd, hch, rfl⟩
      · split
        · exact ⟨hnd, hbd, hch, rfl⟩
        · split
          · exact ⟨hnd, hbd, hch, rfl⟩
          · rename_i hmove hoob hnew
            have hb2 : 0 ≤ (chooseLowest nm w h x y).1 ∧ (chooseLowest nm w h x y).1 < (w : ℤ) ∧
                0 ≤ (chooseLowest nm w h x y).2.1 ∧ (chooseLowest nm w h x y).2.1 < (h : ℤ) := by
              omega
            obtain ⟨hcx0, hcxw, hcy0, hcyh⟩ := hb2
            have hriver : river ≠ [] := by
              intro hr
              rw [hr] at hlast
              exact Option.noConfusion hlast
            have hmv := chooseLowest_move nm w h hmove
            have hnewlt : nm ((chooseLowest nm w h x y).2.1 * w + (chooseLowest nm w h x y).1).toNat <
                nm (y * w + x).toNat := by
              have e1 := getHeightZ_inBounds nm w h hcx0 hcxw hcy0 hcyh
              have e2 := getHeightZ_inBounds nm w h hx0 hxw hy0 hyh
              rw [e1] at hmv
              rw [e2] at hmv
              exact lt_of_le_of_lt (le_of_eq hmv.1.symm) hmv.2
            have hspec := ih (chooseLowest nm w h x y).1 (chooseLowest nm w h x y).2.1
              (river ++ [((chooseLowest nm w h x y).2.1 * w + (chooseLowest nm w h x y).1).toNat])
              hcx0 hcxw hcy0 hcyh
              (by rw [List.getLast?_append_of_ne_nil _ (by simp)]; rfl)
              (by
                rw [List.nodup_append]
                exact ⟨hnd, List.nodup_singleton _, by
                  intro a ha hb
                  rw [List.mem_singleton] at hb
                  rw [hb] at ha
                  exact hnew ha⟩)
              (by
                intro i hi
                rcases List.mem_append.mp hi with hi | hi
                · exact hbd i hi
                · rw [List.mem_singleton] at hi
                  rw [hi]
                  exact idx_toNat_lt hcx0 hcxw hcy0 hcyh)
              (by
                rw [List.chain'_append]
                refine ⟨hch, List.chain'_singleton _, ?_⟩
                intro a ha b hb
                rw [hlast] at ha
                rw [Option.mem_def] at ha
                have ha2 : a = (y * w + x).toNat := by
                  injection ha.symm
                simp only [List.head?_cons, Option.mem_def] at hb
                have hb2 : b = ((chooseLowest nm w h x y).2.1 * w + (chooseLowest nm w h x y).1).toNat := by
                  injection hb.symm
                rw [ha2, hb2]
                exact hnewlt)
            refine ⟨hspec.1, hspec.2.1, hspec.2.2.1, ?_⟩
            rw [hspec.2.2.2]
            obtain ⟨r0, rr, rfl⟩ := List.exists_cons_of_ne_nil hriver
            rfl

/-! ## The start search and one attempt -/

theorem findStartAux_band (nm : ℕ → ℚ) (w h : ℕ) :
    ∀ (fuel s a : ℕ), 100 ≤ fuel + a →
      (findStartAux nm w h fuel s a).2.2.2 < 100 →
      0.6 ≤ getHeightZ nm w h ((findStartAux nm w h fuel s a).1 : ℤ)
          ((findStartAux nm w h fuel s a).2.1 : ℤ) ∧
        getHeightZ nm w h ((findStartAux nm w h fuel s a).1 : ℤ)
          ((findStartAux nm w h fuel s a).2.1 : ℤ) ≤ 0.8 := by
  intro fuel
  induction fuel with
  | zero =>
    intro s a hfa hlt
    simp only [findStartAux] at hlt
    omega
  | succ fuel ih =>
    intro s a hfa hlt
    simp only [findStartAux] at hlt ⊢
    split at hlt
    next hcond =>
      rw [if_pos hcond]
      exact ih _ (a + 1) (by omega) hlt
    next hcond =>
      rw [if_neg hcond]
      simp only at hlt
      exact ⟨le_of_not_lt fun hb => hcond ⟨Or.inl hb, hlt⟩,
        le_of_not_lt fun hb => hcond ⟨Or.inr hb, hlt⟩⟩

theorem riverStart_band (nm : ℕ → ℚ) (w h s : ℕ)
    (hlt : (riverStart nm w h s).2.2.2 < 100) :
    0.6 ≤ getHeightZ nm w h ((riverStart nm w h s).1 : ℤ) ((riverStart nm w h s).2.1 : ℤ) ∧
      getHeightZ nm w h ((riverStart nm w h s).1 : ℤ) ((riverStart nm w h s).2.1 : ℤ) ≤ 0.8 := by
  unfold riverStart at hlt ⊢
  exact findStartAux_band nm w h 100 _ 0 (by omega) hlt

theorem startIdx_toNat (a b w : ℕ) : ((b : ℤ) * (w : ℤ) + (a : ℤ)).toNat = b * w + a := by
  have : ((b : ℤ) * (w : ℤ) + (a : ℤ)) = ((b * w + a : ℕ) : ℤ) := by push_cast; ring
  rw [this, Int.toNat_natCast]

theorem riverAttempt_spec (nm : ℕ → ℚ) (w h minLen s : ℕ) (p : List ℕ)
    (hp : (riverAttempt nm w h minLen s).1 = some p) :
    minLen ≤ p.length ∧ p.Nodup ∧ (∀ i ∈ p, i < w * h) ∧
      List.Chain' (fun a b => nm b < nm a) p ∧
      p.head? = some ((riverStart nm w h s).2.1 * w + (riverStart nm w h s).1) ∧
      (riverStart nm w h s).2.1 * w + (riverStart nm w h s).1 < w * h ∧
      0.6 ≤ nm ((riverStart nm w h s).2.1 * w + (riverStart nm w h s).1) ∧
      nm ((riverStart nm w h s).2.1 * w + (riverStart nm w h s).1) ≤ 0.8 := by
  simp only [riverAttempt] at hp
  split at hp
  · exact absurd hp (by simp)
  · next hlt =>
    push_neg at hlt
    have hband := riverStart_band nm w h s hlt
    obtain ⟨hx0, hxw, hy0, hyh⟩ := inBounds_of_getHeightZ_le nm w h hband.2
    have hstart : ((riverStart nm w h s).2.1 * (w : ℤ) + ((riverStart nm w h s).1 : ℤ)).toNat =
        (riverStart nm w h s).2.1 * w + (riverStart nm w h s).1 :=
      startIdx_toNat _ _ _
    have hidx : (riverStart nm w h s).2.1 * w + (riverStart nm w h s).1 < w * h := by
      rw [← hstart]
      exact idx_toNat_lt hx0 hxw hy0 hyh
    have hws := walk_spec nm w h 1000 ((riverStart nm w h s).1 : ℤ)
      ((riverStart nm w h s).2.1 : ℤ)
      [(riverStart nm w h s).2.1 * w + (riverStart nm w h s).1]
      hx0 hxw hy0 hyh
      (by rw [List.getLast?_singleton, hstart])
      (List.nodup_singleton _)
      (by intro i hi; rw [List.mem_singleton] at hi; rw [hi]; exact hidx)
      (List.chain'_singleton _)
    split at hp
    · next hlen =>
      have hpw : p = walk nm w h 1000 ((riverStart nm w h s).1 : ℤ)
          ((riverStart nm w h s).2.1 : ℤ)
          [(riverStart nm w h s).2.1 * w + (riverStart nm w h s).1] := by
        injection hp.symm
      rw [hpw]
      refine ⟨hlen, hws.1, hws.2.1, hws.2.2.1, ?_, hidx, ?_, ?_⟩
      · rw [hws.2.2.2]
        rfl
      · have := hband.1
        rw [getHeightZ_inBounds nm w h hx0 hxw hy0 hyh, hstart] at this
        exact this
      · have := hband.2
        rw [getHeightZ_inBounds nm w h hx0 hxw hy0 hyh, hstart] at this
        exact this
    · exact absurd hp (by simp)

/-! ## The attempts loop -/

theorem riversLoop_mem (nm : ℕ → ℚ) (w h minLen : ℕ) :
    ∀ (r s : ℕ) (p : List ℕ), p ∈ riversLoop nm w h minLen r s →
      ∃ s2, (riverAttempt nm w h minLen s2).1 = some p := by
  intro r
  induction r with
  | zero =>
    intro s p hp
    exact absurd hp (List.not_mem_nil p)
  | succ r ih =>
    intro s p hp
    have hstep : riversLoop nm w h minLen (r + 1) s =
        (match (riverAttempt nm w h minLen s).1 with
        | some q => q :: riversLoop nm w h minLen r (riverAttempt nm w h minLen s).2
        | none => riversLoop nm w h minLen r (riverAttempt nm w h minLen s).2) := rfl
    rw [hstep] at hp
    cases hA : (riverAttempt nm w h minLen s).1 with
    | none =>
      rw [hA] at hp
      exact ih _ p hp
    | some q =>
      rw [hA] at hp
      rcases List.mem_cons.mp hp with hp | hp
      · exact ⟨s, by rw [hA, hp]⟩
      · exact ih _ p hp

theorem riversLoop_append (nm : ℕ → ℚ) (w h minLen : ℕ) :
    ∀ (a b s : ℕ), ∃ t, riversLoop nm w h minLen (a + b) s =
      riversLoop nm w h minLen a s ++ t := by
  intro a
  induction a with
  | zero =>
    intro b s
    refine ⟨riversLoop nm w h minLen b s, ?_⟩
    rw [Nat.zero_add]
    rfl
  | succ a ih =>
    intro b s
    have hadd : a + 1 + b = (a + b) + 1 := by omega
    rw [hadd]
    have hstep : ∀ n, riversLoop nm w h minLen (n + 1) s =
        (match (riverAttempt nm w h minLen s).1 with
        | some q => q :: riversLoop nm w h minLen n (riverAttempt nm w h minLen s).2
        | none => riversLoop nm w h minLen n (riverAttempt nm w h minLen s).2) :=
      fun _ => rfl
    rw [hstep, hstep]
    obtain ⟨t, ht⟩ := ih b (riverAttempt nm w h minLen s).2
    cases hA : (riverAttempt nm w h minLen s).1 with
    | none => exact ⟨t, ht⟩
    | some q => exact ⟨t, by rw [ht, List.cons_append]⟩

/-! ## City-placement invariants -/

/-- Two cities are at squared distance at least `(w/10)²` — for
non-negative quantities this is exactly Euclidean distance `≥ w/10`. -/
def cityFar (w : ℕ) (c d : City) : Prop :=
  ((w : ℚ) / 10) ^ 2 ≤ ((c.x : ℚ) - (d.x : ℚ)) ^ 2 + ((c.y : ℚ) - (d.y : ℚ)) ^ 2

theorem cityFar_symm {w : ℕ} {c d : City} (hcd : cityFar w c d) : cityFar w d c := by
  unfold cityFar at hcd ⊢
  have hx : ((d.x : ℚ) - (c.x : ℚ)) ^ 2 = ((c.x : ℚ) - (d.x : ℚ)) ^ 2 := by ring
  have hy : ((d.y : ℚ) - (c.y : ℚ)) ^ 2 = ((c.y : ℚ) - (d.y : ℚ)) ^ 2 := by ring
  rw [hx, hy]
  exact hcd

theorem cityLoop_pairwise (nm : ℕ → ℚ) (pts : List ℕ) (w h cc : ℕ) :
    ∀ (fuel s : ℕ) (cities : List City), cities.Pairwise (cityFar w) →
      (cityLoop nm pts w h cc fuel s cities).Pairwise (cityFar w) := by
  intro fuel
  induction fuel with
  | zero => exact fun s cities hpw => hpw
  | succ fuel ih =>
    intro s cities hpw
    simp only [cityLoop]
    split
    · exact hpw
    · split
      · exact ih _ _ hpw
      · split
        · split
          · exact ih _ _ hpw
          · next hclose =>
            apply ih
            rw [List.pairwise_append]
            refine ⟨hpw, List.pairwise_singleton _ _, ?_⟩
            intro c hc d hd
            rw [List.mem_singleton] at hd
            subst hd
            simp only [List.any_eq_true, decide_eq_true_eq, not_exists, not_and, not_lt]
              at hclose
            exact hclose c hc
        · split
          · exact ih _ _ hpw
          · split
            · exact ih _ _ hpw
            · next hclose =>
              apply ih
              rw [List.pairwise_append]
              refine ⟨hpw, List.pairwise_singleton _ _, ?_⟩
              intro c hc d hd
              rw [List.mem_singleton] at hd
              subst hd
              simp only [List.any_eq_true, decide_eq_true_eq, not_exists, not_and, not_lt]
                at hclose
              exact hclose c hc

theorem cityLoop_size (nm : ℕ → ℚ) (pts : List ℕ) (w h cc : ℕ) :
    ∀ (fuel s : ℕ) (cities : List City),
      (∀ c ∈ cities, 1 ≤ c.size ∧ c.size < 9 / 2) →
      ∀ c ∈ cityLoop nm pts w h cc fuel s cities, 1 ≤ c.size ∧ c.size < 9 / 2 := by
  intro fuel
  induction fuel with
  | zero => exact fun s cities hsz => hsz
  | succ fuel ih =>
    intro s cities hsz
    simp only [cityLoop]
    split
    · exact hsz
    · split
      · exact ih _ _ hsz
      · split
        · split
          · exact ih _ _ hsz
          · apply ih
            intro c hc
            rcases List.mem_append.mp hc with hcm | hcm
            · exact hsz c hcm
            · rw [List.mem_singleton] at hcm
              subst hcm
              have h0 := lcgDraw_nonneg (randBelow (randBelow s w).2 h).2
              have h1 := lcgDraw_lt_one (randBelow (randBelow s w).2 h).2
              constructor <;> dsimp only <;> split <;> nlinarith
        · split
          · exact ih _ _ hsz
          · split
            · exact ih _ _ hsz
            · apply ih
              intro c hc
              rcases List.mem_append.mp hc with hcm | hcm
              · exact hsz c hcm
              · rw [List.mem_singleton] at hcm
                subst hcm
                have h0 := lcgDraw_nonneg (lcgDraw (randBelow (randBelow s w).2 h).2).2
                have h1 := lcgDraw_lt_one (lcgDraw (randBelow (randBelow s w).2 h).2).2
                constructor <;> dsimp only <;> split <;> nlinarith

/-! ## The threaded array is returned unchanged -/

theorem riversLoopSt_spec (w h minLen : ℕ) (nm : ℕ → ℚ) :
    ∀ (r s : ℕ), riversLoopSt w h minLen nm r s = (riversLoop nm w h minLen r s, nm) := by
  intro r
  induction r with
  | zero => intro s; rfl
  | succ r ih =>
    intro s
    have h1 : riversLoopSt w h minLen nm (r + 1) s =
        ((match (riverAttempt nm w h minLen s).1 with
          | some p => p :: (riversLoopSt w h minLen nm r (riverAttempt nm w h minLen s).2).1
          | none => (riversLoopSt w h minLen nm r (riverAttempt nm w h minLen s).2).1),
         (riversLoopSt w h minLen nm r (riverAttempt nm w h minLen s).2).2) := rfl
    have h2 : riversLoop nm w h minLen (r + 1) s =
        (match (riverAttempt nm w h minLen s).1 with
        | some p => p :: riversLoop nm w h minLen r (riverAttempt nm w h minLen s).2
        | none => riversLoop nm w h minLen r (riverAttempt nm w h minLen s).2) := rfl
    rw [h1, h2, ih]

theorem cityLoopSt_spec (pts : List ℕ) (w h cc : ℕ) (nm : ℕ → ℚ) :
    ∀ (fuel s : ℕ) (cities : List City),
      cityLoopSt pts w h cc nm fuel s cities = (cityLoop nm pts w h cc fuel s cities, nm) := by
  intro fuel
  induction fuel with
  | zero => intro s cities; rfl
  | succ fuel ih =>
    intro s cities
    simp only [cityLoopSt, cityLoop]
    split
    · rfl
    · split
      · exact ih _ _
      · split
        · split
          · exact ih _ _
          · exact ih _ _
        · split
          · exact ih _ _
          · split
            · exact ih _ _
            · exact ih _ _

/-! ## Concrete inputs used by witnesses and counterexamples -/

/-- 4×4 field: 0.7 everywhere except cell (0,0) = 0.3 and cell (1,1) = 0.5. -/
def mapW1 : ℕ → ℚ := fun i => if i = 0 then 0.3 else if i = 5 then 0.5 else 0.7

/-- 256×256 field: 0 everywhere except index 8058 (cell (122, 31)) = 0.7. -/
def mapW2 : ℕ → ℚ := fun i => if i = 8058 then 0.7 else 0

/-- 16×16 field: 0.7 everywhere except four sink cells of height 0.1. -/
def mapW3 : ℕ → ℚ :=
  fun i => if i = 124 ∨ i = 83 ∨ i = 226 ∨ i = 121 then 0.1 else 0.7

/-- 20×20 field that is 0.5 everywhere. -/
def mapW4 : ℕ → ℚ := fun _ => 0.5

/-! ## Claim theorems -/

/-- C1: the claim that every `generateNoiseMap` output has minimum 0 and
maximum 1 (or is all-zero for a constant raw field), and always lies in
[0,1], fails on the code: on a 1×1 grid whose single raw octave value is
the positive constant 0.5, the tracked maximum (initialized to the
*positive* `Number.MIN_VALUE`) equals the tracked minimum, and the
unguarded normalization computes `0/0 = NaN` (modelled `none`), which is
not a value in [0,1] at all. -/
theorem rawW5_eval : rawNoiseList (fun _ _ => 0.5) 0 1 1 0 1 1 1 1 = [1 / 2] :=
  of_decide_eq_true (by with_unfolding_all rfl)

theorem minW5 : minTracked [(1 : ℚ) / 2] = 1 / 2 := by
  unfold minTracked
  rw [List.foldl_cons, List.foldl_nil]
  exact min_eq_right (by norm_num [NumberMaxValue])

theorem maxW5 : maxTracked [(1 : ℚ) / 2] = 1 / 2 := by
  unfold maxTracked
  rw [List.foldl_cons, List.foldl_nil]
  exact max_eq_right (by norm_num [NumberMinValue])

theorem generateNoiseMap_constant_field_nan :
    generateNoiseMap (fun _ _ => 0.5) 0 1 1 0 1 1 1 1 = [none] := by
  simp only [generateNoiseMap]
  rw [rawW5_eval, minW5, maxW5]
  simp [jsDiv]

/-- C2: the claim that min == max is handled without dividing by zero,
yielding an all-zero field, fails on the code: there is no guard, so on
this constant-positive-raw-field input the tracked minimum equals the
tracked maximum and the cell becomes `(v - min)/(max - min) = 0/0 = NaN`
(modelled `none`), not 0. -/
theorem generateNoiseMap_min_eq_max_div_zero :
    minTracked (rawNoiseList (fun _ _ => 0.5) 0 1 1 0 1 1 1 1) =
        maxTracked (rawNoiseList (fun _ _ => 0.5) 0 1 1 0 1 1 1 1) ∧
      generateNoiseMap (fun _ _ => 0.5) 0 1 1 0 1 1 1 1 ≠ [some 0] := by
  constructor
  · rw [rawW5_eval, minW5, maxW5]
  · simp only [generateNoiseMap]
    rw [rawW5_eval, minW5, maxW5]
    simp [jsDiv]

/-- C3: along every returned river path the height-field value is
monotonically non-increasing at each consecutive stored pair (the code in
fact moves only to strictly lower cells, so no final-step exemption is
even needed). -/
theorem generateRivers_descent (nm : ℕ → ℚ) (w h seed rc ml : ℕ) (p : List ℕ)
    (hp : p ∈ generateRivers nm w h seed rc ml) (i : ℕ) (hi : i + 1 < p.length) :
    nm (p.getD (i + 1) 0) ≤ nm (p.getD i 0) := by
  obtain ⟨s2, hs2⟩ := riversLoop_mem nm w h ml rc seed p hp
  have hch := (riverAttempt_spec nm w h ml s2 p hs2).2.2.2.1
  rw [List.chain'_iff_get] at hch
  have hlt := hch i (by omega)
  rw [List.getD_eq_get _ _ (by omega : i < p.length), List.getD_eq_get _ _ hi]
  exact le_of_lt hlt

/-- C3 witness: on the concrete 4×4 field `mapW1` with seed 1 the run
returns the path `[10, 5, 0]`, and the step from index 10 to index 5
descends. -/
theorem generateRivers_descent_witness :
    [10, 5, 0] ∈ generateRivers mapW1 4 4 1 1 2 ∧ 0 + 1 < ([10, 5, 0] : List ℕ).length ∧
      mapW1 (([10, 5, 0] : List ℕ).getD (0 + 1) 0) ≤ mapW1 (([10, 5, 0] : List ℕ).getD 0 0) :=
  ⟨of_decide_eq_true (by with_unfolding_all rfl),
   of_decide_eq_true (by with_unfolding_all rfl),
   generateRivers_descent mapW1 4 4 1 1 2 [10, 5, 0]
     (of_decide_eq_true (by with_unfolding_all rfl)) 0
     (of_decide_eq_true (by with_unfolding_all rfl))⟩

/-- C4: every returned river path has at least `minRiverLength` points,
contains no duplicate grid index, and every stored index lies in
`[0, width*height)`. -/
theorem generateRivers_validity (nm : ℕ → ℚ) (w h seed rc ml : ℕ) (p : List ℕ)
    (hp : p ∈ generateRivers nm w h seed rc ml) :
    ml ≤ p.length ∧ p.Nodup ∧ ∀ i ∈ p, i < w * h := by
  obtain ⟨s2, hs2⟩ := riversLoop_mem nm w h ml rc seed p hp
  have hs := riverAttempt_spec nm w h ml s2 p hs2
  exact ⟨hs.1, hs.2.1, hs.2.2.1⟩

/-- C4 witness: the path `[10, 5, 0]` returned on `mapW1` has length
`≥ 2 = minRiverLength`, is duplicate-free, and its indices are below
`4 * 4`. -/
theorem generateRivers_validity_witness :
    [10, 5, 0] ∈ generateRivers mapW1 4 4 1 1 2 ∧
      2 ≤ ([10, 5, 0] : List ℕ).length ∧ ([10, 5, 0] : List ℕ).Nodup ∧ 10 < 4 * 4 := by
  have hmem : [10, 5, 0] ∈ generateRivers mapW1 4 4 1 1 2 :=
    of_decide_eq_true (by with_unfolding_all rfl)
  have hv := generateRivers_validity mapW1 4 4 1 1 2 [10, 5, 0] hmem
  exact ⟨hmem, hv.1, hv.2.1, hv.2.2 10 (by simp)⟩

/-- C5: any two distinct cities in one `placeCities` result are at
Euclidean distance at least `width/10` (the source compares
`Math.sqrt(dx² + dy²) < width/10` before accepting a candidate). -/
theorem placeCities_spacing (nm : ℕ → ℚ) (rivers : List (List ℕ)) (w h seed cc : ℕ)
    (i j : ℕ) (hi : i < (placeCities nm rivers w h seed cc).length)
    (hj : j < (placeCities nm rivers w h seed cc).length) (hij : i ≠ j) :
    (w : ℝ) / 10 ≤ Real.sqrt
      (((((placeCities nm rivers w h seed cc).getD i ⟨0, 0, 0⟩).x : ℝ) -
          (((placeCities nm rivers w h seed cc).getD j ⟨0, 0, 0⟩).x : ℝ)) ^ 2 +
        ((((placeCities nm rivers w h seed cc).getD i ⟨0, 0, 0⟩).y : ℝ) -
          (((placeCities nm rivers w h seed cc).getD j ⟨0, 0, 0⟩).y : ℝ)) ^ 2) := by
  have hpw : (placeCities nm rivers w h seed cc).Pairwise (cityFar w) := by
    unfold placeCities
    exact cityLoop_pairwise nm rivers.flatten w h cc _ _ [] List.Pairwise.nil
  have hfar : cityFar w ((placeCities nm rivers w h seed cc).getD i ⟨0, 0, 0⟩)
      ((placeCities nm rivers w h seed cc).getD j ⟨0, 0, 0⟩) := by
    rw [List.pairwise_iff_get] at hpw
    rw [List.getD_eq_get _ _ hi, List.getD_eq_get _ _ hj]
    rcases Nat.lt_or_ge i j with hlt | hge
    · exact hpw ⟨i, hi⟩ ⟨j, hj⟩ (Fin.mk_lt_mk.mpr hlt)
    · exact cityFar_symm (hpw ⟨j, hj⟩ ⟨i, hi⟩ (Fin.mk_lt_mk.mpr (by omega)))
  unfold cityFar at hfar
  rw [Real.le_sqrt (by positivity) (by positivity)]
  have hcast := (Rat.cast_le (K := ℝ)).mpr hfar
  push_cast at hcast
  convert hcast using 2

/-- C5 witness: on the constant field `mapW4` with river cell 0, seed 1
and `cityCount = 2`, two cities are placed and their Euclidean distance
is at least `20/10`. -/
theorem placeCities_spacing_witness :
    0 < (placeCities mapW4 [[0]] 20 20 1 2).length ∧
      1 < (placeCities mapW4 [[0]] 20 20 1 2).length ∧ (0 : ℕ) ≠ 1 ∧
      (20 : ℝ) / 10 ≤ Real.sqrt
        (((((placeCities mapW4 [[0]] 20 20 1 2).getD 0 ⟨0, 0, 0⟩).x : ℝ) -
            (((placeCities mapW4 [[0]] 20 20 1 2).getD 1 ⟨0, 0, 0⟩).x : ℝ)) ^ 2 +
          ((((placeCities mapW4 [[0]] 20 20 1 2).getD 0 ⟨0, 0, 0⟩).y : ℝ) -
            (((placeCities mapW4 [[0]] 20 20 1 2).getD 1 ⟨0, 0, 0⟩).y : ℝ)) ^ 2) := by
  have h0 : 0 < (placeCities mapW4 [[0]] 20 20 1 2).length :=
    of_decide_eq_true (by with_unfolding_all rfl)
  have h1 : 1 < (placeCities mapW4 [[0]] 20 20 1 2).length :=
    of_decide_eq_true (by with_unfolding_all rfl)
  exact ⟨h0, h1, by decide, placeCities_spacing mapW4 [[0]] 20 20 1 2 0 1 h0 h1 (by decide)⟩

/-- C6 (amended): a river walk is begun exactly when the start search
ends with its attempt counter strictly below 100; in that case the
accepted point (the first qualifying sample) has height in [0.6, 0.8]
and the attempt's result is the walk from it, kept iff it is long
enough; an attempt whose counter reaches 100 is skipped entirely — even
when its 100th (final) sampled point qualifies; and every retained path
starts at the accepted point, whose height is in [0.6, 0.8]. -/
theorem generateRivers_startSearch_amended (nm : ℕ → ℚ) (w h ml s : ℕ) :
    ((riverStart nm w h s).2.2.2 < 100 →
      (0.6 ≤ getHeightZ nm w h ((riverStart nm w h s).1 : ℤ) ((riverStart nm w h s).2.1 : ℤ) ∧
        getHeightZ nm w h ((riverStart nm w h s).1 : ℤ) ((riverStart nm w h s).2.1 : ℤ) ≤ 0.8) ∧
      (riverAttempt nm w h ml s).1 =
        (if ml ≤ (walk nm w h 1000 ((riverStart nm w h s).1 : ℤ)
              ((riverStart nm w h s).2.1 : ℤ)
              [(riverStart nm w h s).2.1 * w + (riverStart nm w h s).1]).length
         then some (walk nm w h 1000 ((riverStart nm w h s).1 : ℤ)
              ((riverStart nm w h s).2.1 : ℤ)
              [(riverStart nm w h s).2.1 * w + (riverStart nm w h s).1])
         else none)) ∧
    (100 ≤ (riverStart nm w h s).2.2.2 → (riverAttempt nm w h ml s).1 = none) ∧
    (∀ p, (riverAttempt nm w h ml s).1 = some p →
      p.head? = some ((riverStart nm w h s).2.1 * w + (riverStart nm w h s).1) ∧
      0.6 ≤ nm ((riverStart nm w h s).2.1 * w + (riverStart nm w h s).1) ∧
      nm ((riverStart nm w h s).2.1 * w + (riverStart nm w h s).1) ≤ 0.8) := by
  refine ⟨?_, ?_, ?_⟩
  · intro hlt
    refine ⟨riverStart_band nm w h s hlt, ?_⟩
    simp only [riverAttempt]
    rw [if_neg (not_le.mpr hlt), apply_ite Prod.fst]
  · intro hge
    simp only [riverAttempt]
    rw [if_pos hge]
  · intro p hp
    have hs := riverAttempt_spec nm w h ml s p hp
    exact ⟨hs.2.2.2.2.1, hs.2.2.2.2.2.2.1, hs.2.2.2.2.2.2.2⟩

/-- C6 witness: on `mapW1` with seed 1 the search succeeds after one
attempt and the walk is begun and retained; on `mapW2` with seed 1 the
counter reaches 100 and the attempt yields nothing. -/
theorem generateRivers_startSearch_amended_witness :
    (riverStart mapW1 4 4 1).2.2.2 < 100 ∧
      0.6 ≤ getHeightZ mapW1 4 4 ((riverStart mapW1 4 4 1).1 : ℤ)
          ((riverStart mapW1 4 4 1).2.1 : ℤ) ∧
      getHeightZ mapW1 4 4 ((riverStart mapW1 4 4 1).1 : ℤ)
          ((riverStart mapW1 4 4 1).2.1 : ℤ) ≤ 0.8 ∧
      (riverAttempt mapW1 4 4 2 1).1 = some [10, 5, 0] ∧
      ([10, 5, 0] : List ℕ).head? =
        some ((riverStart mapW1 4 4 1).2.1 * 4 + (riverStart mapW1 4 4 1).1) ∧
      100 ≤ (riverStart mapW2 256 256 1).2.2.2 ∧
      (riverAttempt mapW2 256 256 1 1).1 = none := by
  have h1 : (riverStart mapW1 4 4 1).2.2.2 < 100 :=
    of_decide_eq_true (by with_unfolding_all rfl)
  have hband := ((generateRivers_startSearch_amended mapW1 4 4 2 1).1 h1).1
  have hsome : (riverAttempt mapW1 4 4 2 1).1 = some [10, 5, 0] :=
    of_decide_eq_true (by with_unfolding_all rfl)
  have hhead := ((generateRivers_startSearch_amended mapW1 4 4 2 1).2.2 [10, 5, 0] hsome).1
  have h2 : 100 ≤ (riverStart mapW2 256 256 1).2.2.2 :=
    of_decide_eq_true (by with_unfolding_all rfl)
  have hnone := (generateRivers_startSearch_amended mapW2 256 256 1 1).2.1 h2
  exact ⟨h1, hband.1, hband.2, hsome, hhead, h2, hnone⟩

/-- C6 counterexample: on `mapW2` (256×256, one cell of height 0.7 at
index 8058, the rest 0) with seed 1, the 100th examined sample — a point
sampled within the 100 attempts — has height 0.7 ∈ [0.6, 0.8], yet the
attempt is skipped (the counter has reached 100) and `generateRivers`
returns no river at all. -/
theorem generateRivers_startSearch_counterexample :
    (riverStart mapW2 256 256 1).2.2.2 = 100 ∧
      0.6 ≤ mapW2 ((riverStart mapW2 256 256 1).2.1 * 256 + (riverStart mapW2 256 256 1).1) ∧
      mapW2 ((riverStart mapW2 256 256 1).2.1 * 256 + (riverStart mapW2 256 256 1).1) ≤ 0.8 ∧
      generateRivers mapW2 256 256 1 1 1 = [] :=
  of_decide_eq_true (by with_unfolding_all rfl)

/-- C7: if every height-field value lies in [0, 1], the neighbor scan
started from an in-bounds cell never selects an out-of-bounds cell
(out-of-bounds neighbors read as height 1 and a move requires a strictly
smaller height), so the walk's out-of-bounds termination branch is
unreachable and every stored path index is in bounds. -/
theorem generateRivers_inBounds_step (nm : ℕ → ℚ) (w h seed rc ml : ℕ)
    (hb : ∀ i, i < w * h → 0 ≤ nm i ∧ nm i ≤ 1) :
    (∀ x y : ℤ, 0 ≤ x → x < (w : ℤ) → 0 ≤ y → y < (h : ℤ) →
      0 ≤ (chooseLowest nm w h x y).1 ∧ (chooseLowest nm w h x y).1 < (w : ℤ) ∧
        0 ≤ (chooseLowest nm w h x y).2.1 ∧ (chooseLowest nm w h x y).2.1 < (h : ℤ)) ∧
    (∀ p ∈ generateRivers nm w h seed rc ml, ∀ i ∈ p, i < w * h) := by
  constructor
  · intro x y hx0 hxw hy0 hyh
    apply chooseLowest_inBounds nm w h hx0 hxw hy0 hyh
    rw [getHeightZ_inBounds nm w h hx0 hxw hy0 hyh]
    exact (hb _ (idx_toNat_lt hx0 hxw hy0 hyh)).2
  · intro p hp i hi
    obtain ⟨s2, hs2⟩ := riversLoop_mem nm w h ml rc seed p hp
    exact (riverAttempt_spec nm w h ml s2 p hs2).2.2.1 i hi

/-- C7 witness: on `mapW1` (all values in [0, 1]) the scan from cell
(1, 1) stays in bounds and the returned path index 10 is below `4 * 4`. -/
theorem generateRivers_inBounds_step_witness :
    (∀ i, i < 4 * 4 → 0 ≤ mapW1 i ∧ mapW1 i ≤ 1) ∧
      (0 ≤ (chooseLowest mapW1 4 4 1 1).1 ∧
        (chooseLowest mapW1 4 4 1 1).1 < ((4 : ℕ) : ℤ) ∧
        0 ≤ (chooseLowest mapW1 4 4 1 1).2.1 ∧
        (chooseLowest mapW1 4 4 1 1).2.1 < ((4 : ℕ) : ℤ)) ∧
      10 < 4 * 4 := by
  have hb : ∀ i, i < 4 * 4 → 0 ≤ mapW1 i ∧ mapW1 i ≤ 1 :=
    of_decide_eq_true (by with_unfolding_all rfl)
  refine ⟨hb, ?_, ?_⟩
  · exact (generateRivers_inBounds_step mapW1 4 4 1 1 2 hb).1 1 1
      (by norm_num) (by norm_num) (by norm_num) (by norm_num)
  · exact (generateRivers_inBounds_step mapW1 4 4 1 1 2 hb).2 [10, 5, 0]
      (of_decide_eq_true (by with_unfolding_all rfl)) 10 (by simp)

/-- C8 (amended): the 3-river run's output is an initial segment of the
5-river run's output — the rivers retained from the shared first 3
attempts; the claim's "first 3 successful attempts" phrasing fails when
fewer than 3 of the first 3 attempts succeed. -/
theorem generateRivers_riverCount_monotone (nm : ℕ → ℚ) (w h seed ml : ℕ) :
    ∃ t, generateRivers nm w h seed 5 ml = generateRivers nm w h seed 3 ml ++ t := by
  unfold generateRivers
  obtain ⟨t, ht⟩ := riversLoop_append nm w h ml 3 2 seed
  exact ⟨t, ht⟩

/-- C8 counterexample: on `mapW3` with seed 1 the first attempt's walk is
too short to retain (so it is an unsuccessful attempt) while attempts
2–5 all succeed: the 5-river run returns 4 rivers, the 3-river run
returns 2, and the first 3 rivers of the 5-river run (its first 3
successful attempts) differ from the 3-river run's entire output. -/
theorem generateRivers_riverCount_counterexample :
    (generateRivers mapW3 16 16 1 5 2).take 3 ≠ generateRivers mapW3 16 16 1 3 2 ∧
      (generateRivers mapW3 16 16 1 5 2).length = 4 ∧
      (generateRivers mapW3 16 16 1 3 2).length = 2 :=
  of_decide_eq_true (by with_unfolding_all rfl)

/-- C9: neither `generateRivers` nor `placeCities` mutates the height
field: in the state-threaded views — where the mutable array value is
passed through every loop iteration exactly as the source's statements
touch it (reads only, no element assignment) — the final array equals
the initial one, and the computed results agree with the plain
embeddings. -/
theorem noiseMap_not_mutated (nm : ℕ → ℚ) (rivers : List (List ℕ))
    (w h seed rc ml cc : ℕ) :
    (generateRiversSt nm w h seed rc ml).2 = nm ∧
      (generateRiversSt nm w h seed rc ml).1 = generateRivers nm w h seed rc ml ∧
      (placeCitiesSt nm rivers w h seed cc).2 = nm ∧
      (placeCitiesSt nm rivers w h seed cc).1 = placeCities nm rivers w h seed cc := by
  refine ⟨?_, ?_, ?_, ?_⟩
  · unfold generateRiversSt
    rw [riversLoopSt_spec]
  · unfold generateRiversSt generateRivers
    rw [riversLoopSt_spec]
  · unfold placeCitiesSt
    rw [cityLoopSt_spec]
  · unfold placeCitiesSt placeCities
    rw [cityLoopSt_spec]

/-- C10: every placed city's size lies in [1, 4.5): the base is
`1 + random()*2` with `random() ∈ [0, 1)`, plus 1 near a river, plus 0.5
when the terrain height is strictly between 0.4 and 0.6. -/
theorem placeCities_size_range (nm : ℕ → ℚ) (rivers : List (List ℕ)) (w h seed cc : ℕ)
    (c : City) (hc : c ∈ placeCities nm rivers w h seed cc) :
    1 ≤ c.size ∧ c.size < 4.5 := by
  have hs := cityLoop_size nm rivers.flatten w h cc (cc * 10) seed []
    (fun c hc => absurd hc (List.not_mem_nil c)) c hc
  refine ⟨hs.1, ?_⟩
  have h45 : (4.5 : ℚ) = 9 / 2 := by norm_num
  rw [h45]
  exact hs.2

/-- C10 witness: two cities are placed on `mapW4` with seed 1, and the
first one's size lies in [1, 4.5). -/
theorem placeCities_size_range_witness :
    0 < (placeCities mapW4 [[0]] 20 20 1 2).length ∧
      1 ≤ ((placeCities mapW4 [[0]] 20 20 1 2).getD 0 ⟨0, 0, 0⟩).size ∧
      ((placeCities mapW4 [[0]] 20 20 1 2).getD 0 ⟨0, 0, 0⟩).size < 4.5 := by
  have h0 : 0 < (placeCities mapW4 [[0]] 20 20 1 2).length :=
    of_decide_eq_true (by with_unfolding_all rfl)
  have hmem : (placeCities mapW4 [[0]] 20 20 1 2).getD 0 ⟨0, 0, 0⟩ ∈
      placeCities mapW4 [[0]] 20 20 1 2 := by
    rw [List.getD_eq_getElem _ _ h0]
    exact List.getElem_mem h0
  have hs := placeCities_size_range mapW4 [[0]] 20 20 1 2 _ hmem
  exact ⟨h0, hs.1, hs.2⟩

end MapGen
